import Mathlib

/-!
Shallow embedding of `kernels.py` from the VKOGA repository.

The file models the RBF kernel family (Gaussian, GaussianTanh, IMQ,
Matern, Wendland) and the Polynomial kernel. Point sets are lists of
coordinate lists over the reals; the shape parameter `ep` is a rational
(every machine float is rational). The pairwise Euclidean distance of
`scipy.spatial.distance_matrix` is modelled by `euclDist`, matrices by
lists of rows. Constructors that raise in Python return `Except`.
-/

namespace Kernels

/-- Euclidean distance between two coordinate lists, as computed by
`scipy.spatial.distance_matrix` entrywise. -/
noncomputable def euclDist (x y : List ℝ) : ℝ :=
  Real.sqrt (((List.zip x y).map fun q => (q.1 - q.2) ^ 2).sum)

/-- Euclidean norm of one row, as computed by `np.linalg.norm(X, axis=1)`. -/
noncomputable def rowNorm (x : List ℝ) : ℝ :=
  Real.sqrt ((x.map fun a => a ^ 2).sum)

/-- Inner product of two coordinate lists, one entry of `x @ y.transpose()`. -/
def innerProd (x y : List ℝ) : ℝ :=
  ((List.zip x y).map fun q => q.1 * q.2).sum

/-- Scientific rendering of a rational with a two decimal place mantissa,
modelling the Python format `'%2.2e' % ep` on the parameter values. -/
def fmtE (q : ℚ) : String :=
  if q = 0 then "0.00e+00"
  else
    let sgn := if q < 0 then "-" else ""
    let aq := |q|
    let e0 : ℤ := Int.log 10 aq
    let m0 : ℤ := round (aq * 100 / 10 ^ e0)
    let m : ℤ := if 1000 ≤ m0 then m0 / 10 else m0
    let e : ℤ := if 1000 ≤ m0 then e0 + 1 else e0
    let frac := (m % 100).toNat
    let fracs := if frac < 10 then "0" ++ toString frac else toString frac
    let ea := if e < 0 then (-e).toNat else e.toNat
    let eas := if ea < 10 then "0" ++ toString ea else toString ea
    sgn ++ toString (m / 100) ++ "." ++ fracs ++
      (if e < 0 then "e-" else "e+") ++ eas

/-- State of a concrete RBF kernel object: the mutable shape parameter
`ep`, the `name` tag, and the profile function `rbf` installed by the
constructor (a closure field in the Python source). -/
structure RBF where
  ep : ℚ
  name : String
  rbf : ℚ → ℝ → ℝ

/-- `RBF.eval`: profile function applied entrywise to the pairwise
distance matrix, `self.rbf(self.ep, distance_matrix(x, y))`. -/
noncomputable def RBF.eval (K : RBF) (x y : List (List ℝ)) : List (List ℝ) :=
  x.map fun xi => y.map fun yj => K.rbf K.ep (euclDist xi yj)

/-- `RBF.diagonal`: `np.ones(X.shape[0]) * self.rbf(self.ep, 0)`. -/
noncomputable def RBF.diagonal (K : RBF) (X : List (List ℝ)) : List ℝ :=
  List.replicate X.length (K.rbf K.ep 0)

/-- `RBF.__str__`: the label `name [gamma = ep]` with `ep` in `%2.2e` format. -/
def RBF.str (K : RBF) : String :=
  K.name ++ " [gamma = " ++ fmtE K.ep ++ "]"

/-- `RBF.set_params`: overwrite the shape parameter in place. -/
def RBF.set_params (K : RBF) (par : ℚ) : RBF :=
  { K with ep := par }

/-- The `Gaussian` constructor. -/
noncomputable def Gaussian (ep : ℚ := 1) : RBF :=
  { ep := ep, name := "gauss",
    rbf := fun e r => Real.exp (-((e : ℝ) * r) ^ 2) }

/-- The `GaussianTanh` constructor. -/
noncomputable def GaussianTanh (ep : ℚ := 1) : RBF :=
  { ep := ep, name := "gauss_tanh",
    rbf := fun e r => Real.exp (-((e : ℝ) * Real.tanh r) ^ 2) }

/-- The `IMQ` constructor. -/
noncomputable def IMQ (ep : ℚ := 1) : RBF :=
  { ep := ep, name := "imq",
    rbf := fun e r => 1 / Real.sqrt (1 + ((e : ℝ) * r) ^ 2) }

/-- The `Matern` constructor: branch on the smoothness order `k`,
raising for unsupported orders. -/
noncomputable def Matern (ep : ℚ := 1) (k : ℕ := 0) : Except String RBF :=
  if k = 0 then
    .ok { ep := ep, name := "mat0",
          rbf := fun e r => Real.exp (-(e : ℝ) * r) }
  else if k = 1 then
    .ok { ep := ep, name := "mat1",
          rbf := fun e r => Real.exp (-(e : ℝ) * r) * (1 + (e : ℝ) * r) }
  else if k = 2 then
    .ok { ep := ep, name := "mat2",
          rbf := fun e r => Real.exp (-(e : ℝ) * r) *
            (3 + 3 * ((e : ℝ) * r) + ((e : ℝ) * r) ^ 2) }
  else if k = 3 then
    .ok { ep := ep, name := "mat3",
          rbf := fun e r => Real.exp (-(e : ℝ) * r) *
            (15 + 15 * ((e : ℝ) * r) + 6 * ((e : ℝ) * r) ^ 2 + ((e : ℝ) * r) ^ 3) }
  else
    .error "This Matern kernel is not implemented"

/-- Tail of the `Wendland` constructor shared by all supported orders:
given the branch polynomial `p` and the derived `l = floor(d/2) + k + 1`,
install the profile
`max(1 - ep*r, 0) ^ (l + k) * p(ep*r) / (factorial(l + 2*k) / factorial l)`. -/
noncomputable def wendFinish (ep : ℚ) (k d l : ℕ) (p : ℝ → ℝ) : RBF :=
  { ep := ep, name := "wen_" ++ toString d ++ "_" ++ toString k,
    rbf := fun e r =>
      max (1 - (e : ℝ) * r) 0 ^ (l + k) * p ((e : ℝ) * r) /
        ((Nat.factorial (l + 2 * k) : ℝ) / (Nat.factorial l : ℝ)) }

/-- The `Wendland` constructor: derive `l`, branch on the order `k` to pick
the hand written polynomial, raising for unsupported orders. -/
noncomputable def Wendland (ep : ℚ := 1) (k : ℕ := 0) (d : ℕ := 1) :
    Except String RBF :=
  let l : ℕ := d / 2 + k + 1
  if k = 0 then
    .ok (wendFinish ep k d l fun _ => 1)
  else if k = 1 then
    .ok (wendFinish ep k d l fun r => ((l : ℝ) + 1) * r + 1)
  else if k = 2 then
    .ok (wendFinish ep k d l fun r =>
      ((l : ℝ) + 3) * ((l : ℝ) + 1) * r ^ 2 + 3 * ((l : ℝ) + 2) * r + 3)
  else if k = 3 then
    .ok (wendFinish ep k d l fun r =>
      ((l : ℝ) + 5) * ((l : ℝ) + 3) * ((l : ℝ) + 1) * r ^ 3 +
        (45 + 6 * (l : ℝ) * ((l : ℝ) + 6)) * r ^ 2 +
        (15 * ((l : ℝ) + 3)) * r + 15)
  else if k = 4 then
    .ok (wendFinish ep k d l fun r =>
      ((l : ℝ) + 7) * ((l : ℝ) + 5) * ((l : ℝ) + 3) * ((l : ℝ) + 1) * r ^ 4 +
        (5 * ((l : ℝ) + 4) * (21 + 2 * (l : ℝ) * (8 + (l : ℝ)))) * r ^ 3 +
        (45 * (14 + (l : ℝ) * ((l : ℝ) + 8))) * r ^ 2 +
        (105 * ((l : ℝ) + 4)) * r + 105)
  else
    .error "This Wendland kernel is not implemented"

/-- State of the `Polynomial` kernel object: offset `a` and exponent `p`. -/
structure Polynomial where
  a : ℝ
  p : ℕ

/-- `Polynomial.eval`: `(x @ y.transpose() + a) ** p` entrywise. -/
noncomputable def Polynomial.eval (K : Polynomial) (x y : List (List ℝ)) :
    List (List ℝ) :=
  x.map fun xi => y.map fun yj => (innerProd xi yj + K.a) ^ K.p

/-- `Polynomial.diagonal`: `(np.linalg.norm(X, axis=1) + a) ** p` per row. -/
noncomputable def Polynomial.diagonal (K : Polynomial) (X : List (List ℝ)) :
    List ℝ :=
  X.map fun xi => (rowNorm xi + K.a) ^ K.p

/-- `Polynomial.set_params`: overwrite `a` and `p`, in that order. -/
def Polynomial.set_params (_K : Polynomial) (par : ℝ × ℕ) : Polynomial :=
  { a := par.1, p := par.2 }

/-- Value at zero of the Wendland branch polynomial for each supported order. -/
def wendP0 : ℕ → ℕ
  | 0 => 1
  | 1 => 1
  | 2 => 3
  | 3 => 15
  | _ => 105

/-- Self distance is zero: each summand of the squared distance of a point
to itself vanishes. -/
theorem euclDist_self (x : List ℝ) : euclDist x x = 0 := by
  have h : ((List.zip x x).map fun q => (q.1 - q.2) ^ 2).sum = 0 := by
    induction x with
    | nil => simp
    | cons a t ih => simpa using ih
  simp [euclDist, h]

/-- Euclidean distance is symmetric. -/
theorem euclDist_comm (x y : List ℝ) : euclDist x y = euclDist y x := by
  have h : ((List.zip x y).map fun q => (q.1 - q.2) ^ 2).sum =
      ((List.zip y x).map fun q => (q.1 - q.2) ^ 2).sum := by
    induction x generalizing y with
    | nil => cases y <;> simp
    | cons a t ih =>
      cases y with
      | nil => simp
      | cons b s =>
        simp only [List.zip_cons_cons, List.map_cons, List.sum_cons, ih s]
        ring
  simp [euclDist, h]

/-- Euclidean distance is nonnegative. -/
theorem euclDist_nonneg (x y : List ℝ) : 0 ≤ euclDist x y :=
  Real.sqrt_nonneg _

/-- The self inner product is the sum of squared coordinates. -/
theorem innerProd_self (x : List ℝ) :
    innerProd x x = (x.map fun a => a ^ 2).sum := by
  induction x with
  | nil => simp [innerProd]
  | cons a t ih => simpa [innerProd, sq] using congrArg (fun s => a * a + s) ih

/-- The self inner product is the squared row norm. -/
theorem innerProd_self_eq_rowNorm_sq (x : List ℝ) :
    innerProd x x = rowNorm x ^ 2 := by
  rw [innerProd_self, rowNorm, Real.sq_sqrt]
  exact List.sum_nonneg (by
    intro v hv
    rcases List.mem_map.1 hv with ⟨a, _, rfl⟩
    positivity)

/-- Mapping a function over a successful construction. -/
theorem exceptMapOk {ε α β : Type} (f : α → β) (x : α) :
    (Except.ok x : Except ε α).map f = .ok (f x) := rfl

/-- The Wendland profile at distance 0: the clamp is 1, so only the
polynomial value at 0 and the normalizing constant remain. -/
theorem wendFinish_rbf_zero (ep e0 : ℚ) (k d l : ℕ) (p : ℝ → ℝ) :
    (wendFinish ep k d l p).rbf e0 0 =
      p 0 * (Nat.factorial l : ℝ) / (Nat.factorial (l + 2 * k) : ℝ) := by
  have h1 : max (1 : ℝ) 0 = 1 := by norm_num
  simp only [wendFinish, mul_zero, sub_zero, h1, one_pow, one_mul]
  rw [div_div_eq_mul_div]

/-- C1: the claim that every supported profile equals 1 at distance 0 fails:
the Matern order 2 kernel has diagonal entries equal to 3, not 1. -/
theorem C1_counterexample :
    ((Matern 1 2).map fun K => K.diagonal [[0]]) = .ok [3] ∧ (3 : ℝ) ≠ 1 := by
  constructor
  · simp [Matern, RBF.diagonal, exceptMapOk, Real.exp_zero]
  · norm_num

/-- C1 (amended): at distance 0, Gaussian and IMQ equal 1 for every ep, as do
Matern orders 0 and 1; Matern orders 2 and 3 equal 3 and 15; the Wendland
kernel of order k and dimension d equals `p_k(0) * l! / (l + 2k)!` with
`l = floor(d/2) + k + 1`, which is 1 only for k = 0. -/
theorem C1_amended (ep : ℚ) (k d : ℕ) (hd : 1 ≤ d) (hk : k ≤ 4) :
    (Gaussian ep).rbf ep 0 = 1 ∧
    (IMQ ep).rbf ep 0 = 1 ∧
    ((Matern ep 0).map fun K => K.rbf K.ep 0) = .ok 1 ∧
    ((Matern ep 1).map fun K => K.rbf K.ep 0) = .ok 1 ∧
    ((Matern ep 2).map fun K => K.rbf K.ep 0) = .ok 3 ∧
    ((Matern ep 3).map fun K => K.rbf K.ep 0) = .ok 15 ∧
    ((Wendland ep k d).map fun K => K.rbf K.ep 0) =
      .ok ((wendP0 k : ℝ) * (Nat.factorial (d / 2 + k + 1) : ℝ) /
        (Nat.factorial (d / 2 + k + 1 + 2 * k) : ℝ)) := by
  refine ⟨?_, ?_, ?_, ?_, ?_, ?_, ?_⟩
  · simp [Gaussian, Real.exp_zero]
  · simp [IMQ, Real.sqrt_one]
  · simp [Matern, exceptMapOk, Real.exp_zero]
  · simp [Matern, exceptMapOk, Real.exp_zero]
  · simp [Matern, exceptMapOk, Real.exp_zero]
  · simp [Matern, exceptMapOk, Real.exp_zero]
  · interval_cases k <;>
      simp [Wendland, exceptMapOk, wendFinish_rbf_zero, wendP0]

/-- C1 witness: the amended statement at ep = 1, k = 1, d = 1. -/
theorem C1_amended_witness :
    (1 : ℕ) ≤ 1 ∧ (1 : ℕ) ≤ 4 ∧
    ((Gaussian 1).rbf 1 0 = 1 ∧
      (IMQ 1).rbf 1 0 = 1 ∧
      ((Matern 1 0).map fun K => K.rbf K.ep 0) = .ok 1 ∧
      ((Matern 1 1).map fun K => K.rbf K.ep 0) = .ok 1 ∧
      ((Matern 1 2).map fun K => K.rbf K.ep 0) = .ok 3 ∧
      ((Matern 1 3).map fun K => K.rbf K.ep 0) = .ok 15 ∧
      ((Wendland 1 1 1).map fun K => K.rbf K.ep 0) =
        .ok ((wendP0 1 : ℝ) * (Nat.factorial (1 / 2 + 1 + 1) : ℝ) /
          (Nat.factorial (1 / 2 + 1 + 1 + 2 * 1) : ℝ))) :=
  ⟨by norm_num, by norm_num, C1_amended 1 1 1 (by norm_num) (by norm_num)⟩

/-- C2: for every RBF kernel object, the diagonal shortcut has one entry per
point of X, each entry is the profile at distance 0, and it agrees with the
corresponding diagonal entry of the full evaluation on (X, X). -/
theorem C2_diagonal (K : RBF) (X : List (List ℝ)) (i : ℕ) (h : i < X.length) :
    (K.diagonal X).length = X.length ∧
    (K.diagonal X)[i]? = some (K.rbf K.ep 0) ∧
    ((K.eval X X)[i]?.bind fun row => row[i]?) = some (K.rbf K.ep 0) := by
  refine ⟨by simp [RBF.diagonal], ?_, ?_⟩
  · simp [RBF.diagonal, List.getElem?_replicate, h]
  · have hx : X[i]? = some X[i] := List.getElem?_eq_getElem h
    simp [RBF.eval, List.getElem?_map, hx, euclDist_self]

/-- C2 witness: the Gaussian kernel with ep = 1 on the single point set
containing the origin. -/
theorem C2_diagonal_witness :
    ((Gaussian 1).diagonal [[(0 : ℝ)]]).length = [[(0 : ℝ)]].length ∧
    ((Gaussian 1).diagonal [[(0 : ℝ)]])[0]? =
      some ((Gaussian 1).rbf (Gaussian 1).ep 0) ∧
    (((Gaussian 1).eval [[(0 : ℝ)]] [[(0 : ℝ)]])[0]?.bind fun row => row[0]?) =
      some ((Gaussian 1).rbf (Gaussian 1).ep 0) :=
  C2_diagonal (Gaussian 1) [[(0 : ℝ)]] 0 (by norm_num)

/-- C3: the Polynomial kernel's diagonal entry for row i is
`(norm(X_i) + a) ^ p` with the unsquared norm, while the true diagonal entry
of the full evaluation on (X, X) is `(norm(X_i) ^ 2 + a) ^ p`. -/
theorem C3_poly_diagonal (K : Polynomial) (X : List (List ℝ)) (i : ℕ)
    (xi : List ℝ) (h : X[i]? = some xi) :
    (K.diagonal X).length = X.length ∧
    (K.diagonal X)[i]? = some ((rowNorm xi + K.a) ^ K.p) ∧
    ((K.eval X X)[i]?.bind fun row => row[i]?) =
      some ((rowNorm xi ^ 2 + K.a) ^ K.p) := by
  refine ⟨by simp [Polynomial.diagonal], ?_, ?_⟩
  · simp [Polynomial.diagonal, List.getElem?_map, h]
  · simp [Polynomial.eval, List.getElem?_map, h, innerProd_self_eq_rowNorm_sq]

/-- C3 witness: with a = 0, p = 1 and the single point (2), the shortcut
diagonal and the true diagonal are instantiated at row 0. -/
theorem C3_poly_diagonal_witness :
    ((⟨0, 1⟩ : Polynomial).diagonal [[(2 : ℝ)]]).length = [[(2 : ℝ)]].length ∧
    ((⟨0, 1⟩ : Polynomial).diagonal [[(2 : ℝ)]])[0]? =
      some ((rowNorm [2] + (0 : ℝ)) ^ 1) ∧
    (((⟨0, 1⟩ : Polynomial).eval [[(2 : ℝ)]] [[(2 : ℝ)]])[0]?.bind
        fun row => row[0]?) =
      some ((rowNorm [2] ^ 2 + (0 : ℝ)) ^ 1) :=
  C3_poly_diagonal ⟨0, 1⟩ [[(2 : ℝ)]] 0 [2] rfl

/-- The shape parameter stored by the Wendland constructor tail. -/
theorem wendFinish_ep (ep : ℚ) (k d l : ℕ) (p : ℝ → ℝ) :
    (wendFinish ep k d l p).ep = ep := rfl

/-- Outside the support the clamp vanishes, so the whole profile is 0. -/
theorem wendFinish_rbf_far (ep e0 : ℚ) (k d l : ℕ) (p : ℝ → ℝ) (hl : l ≠ 0)
    (r : ℝ) (h : 1 < (e0 : ℝ) * r) :
    (wendFinish ep k d l p).rbf e0 r = 0 := by
  have hm : max (1 - (e0 : ℝ) * r) 0 = 0 := max_eq_right (by linarith)
  have he : l + k ≠ 0 := by omega
  simp [wendFinish, hm, zero_pow he]

/-- Every supported Wendland construction succeeds and produces the shared
constructor tail applied to the branch polynomial. -/
theorem wendland_ok_shape (ep : ℚ) (k d : ℕ) (hk : k ≤ 4) :
    ∃ p, Wendland ep k d = .ok (wendFinish ep k d (d / 2 + k + 1) p) := by
  interval_cases k <;> exact ⟨_, rfl⟩

/-- C4: for every supported Wendland kernel with positive shape parameter,
any evaluation entry whose points lie at scaled distance strictly greater
than 1 is exactly zero. -/
theorem C4_wendland_support (ep : ℚ) (k d : ℕ) (hk : k ≤ 4) (hd : 1 ≤ d)
    (hep : 0 < ep) (K : RBF) (hK : Wendland ep k d = .ok K)
    (X Y : List (List ℝ)) (i j : ℕ) (xi yj : List ℝ)
    (hx : X[i]? = some xi) (hy : Y[j]? = some yj)
    (hfar : 1 < (ep : ℝ) * euclDist xi yj) :
    ((K.eval X Y)[i]?.bind fun row => row[j]?) = some 0 := by
  obtain ⟨p, hw⟩ := wendland_ok_shape ep k d hk
  rw [hw] at hK
  injection hK with hK
  subst hK
  have hz := wendFinish_rbf_far ep ep k d (d / 2 + k + 1) p (by omega)
    (euclDist xi yj) hfar
  simp [RBF.eval, List.getElem?_map, hx, hy, wendFinish_ep, hz]

/-- C4 witness: Wendland order 0 in dimension 1 with ep = 1, on the points
0 and 2 of the line, which lie at scaled distance 2 > 1. -/
theorem C4_wendland_support_witness :
    (0 : ℕ) ≤ 4 ∧ (1 : ℕ) ≤ 1 ∧ (0 : ℚ) < 1 ∧
    Wendland 1 0 1 = .ok (wendFinish 1 0 1 1 fun _ => 1) ∧
    [[(0 : ℝ)]][0]? = some [0] ∧ [[(2 : ℝ)]][0]? = some [2] ∧
    1 < ((1 : ℚ) : ℝ) * euclDist [0] [2] ∧
    (((wendFinish 1 0 1 1 fun _ => (1 : ℝ)).eval [[0]] [[2]])[0]?.bind
      fun row => row[0]?) = some 0 := by
  have h2 : euclDist [(0 : ℝ)] [2] = 2 := by
    have : ((0 : ℝ) - 2) ^ 2 = 2 ^ 2 := by norm_num
    simp [euclDist, this, Real.sqrt_sq (by norm_num : (0 : ℝ) ≤ 2)]
  have hfar : 1 < ((1 : ℚ) : ℝ) * euclDist [(0 : ℝ)] [2] := by
    rw [h2]; norm_num
  exact ⟨by norm_num, le_refl 1, by norm_num, rfl, rfl, rfl, hfar,
    C4_wendland_support 1 0 1 (by norm_num) (le_refl 1) (by norm_num)
      (wendFinish 1 0 1 1 fun _ => 1) rfl [[0]] [[2]] 0 0 [0] [2] rfl rfl hfar⟩

/-- C5: Matern construction fails with the unimplemented-variant error for
orders above 3 and succeeds for orders up to 3; Wendland construction fails
for orders above 4 and succeeds for orders up to 4. -/
theorem C5_construction (ep : ℚ) (k d : ℕ) :
    (3 < k → Matern ep k = .error "This Matern kernel is not implemented") ∧
    (k ≤ 3 → ∃ K, Matern ep k = .ok K) ∧
    (4 < k → Wendland ep k d = .error "This Wendland kernel is not implemented") ∧
    (k ≤ 4 → ∃ K, Wendland ep k d = .ok K) := by
  refine ⟨?_, ?_, ?_, ?_⟩
  · intro h
    simp [Matern, show k ≠ 0 by omega, show k ≠ 1 by omega,
      show k ≠ 2 by omega, show k ≠ 3 by omega]
  · intro h
    interval_cases k <;> exact ⟨_, rfl⟩
  · intro h
    simp [Wendland, show k ≠ 0 by omega, show k ≠ 1 by omega,
      show k ≠ 2 by omega, show k ≠ 3 by omega, show k ≠ 4 by omega]
  · intro h
    obtain ⟨p, hw⟩ := wendland_ok_shape ep k d h
    exact ⟨_, hw⟩

/-- C5 witness: Matern order 4 and Wendland order 5 fail, Matern order 3 and
Wendland order 4 succeed, at ep = 1 and dimension 1. -/
theorem C5_construction_witness :
    Matern 1 4 = .error "This Matern kernel is not implemented" ∧
    (∃ K, Matern 1 3 = .ok K) ∧
    Wendland 1 5 1 = .error "This Wendland kernel is not implemented" ∧
    (∃ K, Wendland 1 4 1 = .ok K) :=
  ⟨(C5_construction 1 4 1).1 (by norm_num),
   (C5_construction 1 3 1).2.1 (by norm_num),
   (C5_construction 1 5 1).2.2.1 (by norm_num),
   (C5_construction 1 4 1).2.2.2 (by norm_num)⟩

/-- Modelled from the spec: the Wendland profile form
`f(ep, r) = max(1 - ep*r, 0) ^ e * P(ep*r) / c` with derived constants
`l = floor(d/2) + k + 1`, `e = l + k` and `c = (l + 2k)! / l!`. -/
noncomputable def specWendProfile (k d : ℕ) (P : ℝ → ℝ) (e0 : ℚ) (r : ℝ) : ℝ :=
  let l : ℕ := d / 2 + k + 1
  max (1 - (e0 : ℝ) * r) 0 ^ (l + k) * P ((e0 : ℝ) * r) /
    ((Nat.factorial (l + 2 * k) : ℝ) / (Nat.factorial l : ℝ))

/-- C6: each supported Wendland constructor installs exactly the profile of
the spec form, with `l = floor(d/2) + k + 1`, `e = l + k`,
`c = (l + 2k)! / l!`, and a branch polynomial satisfying `P_0 = 1` and
`P_1(x) = (l + 1) x + 1`. -/
theorem C6_wendland_constants (ep : ℚ) (k d : ℕ) (hk : k ≤ 4) (hd : 1 ≤ d) :
    ∃ P : ℝ → ℝ,
      ((Wendland ep k d).map fun K => K.rbf) = .ok (specWendProfile k d P) ∧
      (k = 0 → ∀ x, P x = 1) ∧
      (k = 1 → ∀ x, P x = (((d / 2 + k + 1 : ℕ) : ℝ) + 1) * x + 1) := by
  interval_cases k
  · exact ⟨fun _ => 1, rfl, fun _ _ => rfl, fun h => absurd h (by decide)⟩
  · exact ⟨fun x => (((d / 2 + 1 + 1 : ℕ) : ℝ) + 1) * x + 1, rfl,
      fun h => absurd h (by decide), fun _ x => by push_cast; ring⟩
  · exact ⟨fun x => (((d / 2 + 2 + 1 : ℕ) : ℝ) + 3) * (((d / 2 + 2 + 1 : ℕ) : ℝ) + 1) * x ^ 2 +
        3 * (((d / 2 + 2 + 1 : ℕ) : ℝ) + 2) * x + 3,
      rfl, fun h => absurd h (by decide), fun h => absurd h (by decide)⟩
  · exact ⟨fun x => (((d / 2 + 3 + 1 : ℕ) : ℝ) + 5) * (((d / 2 + 3 + 1 : ℕ) : ℝ) + 3) *
          (((d / 2 + 3 + 1 : ℕ) : ℝ) + 1) * x ^ 3 +
        (45 + 6 * ((d / 2 + 3 + 1 : ℕ) : ℝ) * (((d / 2 + 3 + 1 : ℕ) : ℝ) + 6)) * x ^ 2 +
        (15 * (((d / 2 + 3 + 1 : ℕ) : ℝ) + 3)) * x + 15,
      rfl, fun h => absurd h (by decide), fun h => absurd h (by decide)⟩
  · exact ⟨fun x => (((d / 2 + 4 + 1 : ℕ) : ℝ) + 7) * (((d / 2 + 4 + 1 : ℕ) : ℝ) + 5) *
          (((d / 2 + 4 + 1 : ℕ) : ℝ) + 3) * (((d / 2 + 4 + 1 : ℕ) : ℝ) + 1) * x ^ 4 +
        (5 * (((d / 2 + 4 + 1 : ℕ) : ℝ) + 4) *
          (21 + 2 * ((d / 2 + 4 + 1 : ℕ) : ℝ) * (8 + ((d / 2 + 4 + 1 : ℕ) : ℝ)))) * x ^ 3 +
        (45 * (14 + ((d / 2 + 4 + 1 : ℕ) : ℝ) * (((d / 2 + 4 + 1 : ℕ) : ℝ) + 8))) * x ^ 2 +
        (105 * (((d / 2 + 4 + 1 : ℕ) : ℝ) + 4)) * x + 105,
      rfl, fun h => absurd h (by decide), fun h => absurd h (by decide)⟩

/-- C6 witness: the spec form at ep = 1, order 1, dimension 1. -/
theorem C6_wendland_constants_witness :
    (1 : ℕ) ≤ 4 ∧ (1 : ℕ) ≤ 1 ∧
    (∃ P : ℝ → ℝ,
      ((Wendland 1 1 1).map fun K => K.rbf) = .ok (specWendProfile 1 1 P) ∧
      ((1 : ℕ) = 0 → ∀ x, P x = 1) ∧
      ((1 : ℕ) = 1 → ∀ x, P x = (((1 / 2 + 1 + 1 : ℕ) : ℝ) + 1) * x + 1)) :=
  ⟨by norm_num, le_refl 1, C6_wendland_constants 1 1 1 (by norm_num) (le_refl 1)⟩

/-- C7: for every RBF kernel object and point set X, the evaluation on
(X, X) is a symmetric matrix. -/
theorem C7_symmetric (K : RBF) (X : List (List ℝ)) (i j : ℕ) :
    ((K.eval X X)[i]?.bind fun row => row[j]?) =
      ((K.eval X X)[j]?.bind fun row => row[i]?) := by
  rcases Nat.lt_or_ge i X.length with hi | hi
  · rcases Nat.lt_or_ge j X.length with hj | hj
    · have hxi : X[i]? = some X[i] := List.getElem?_eq_getElem hi
      have hxj : X[j]? = some X[j] := List.getElem?_eq_getElem hj
      have hc : euclDist X[i] X[j] = euclDist X[j] X[i] := euclDist_comm _ _
      simp [RBF.eval, List.getElem?_map, hxi, hxj, hc]
    · have hxj : X[j]? = none := List.getElem?_eq_none hj
      rcases Nat.lt_or_ge i X.length with hi2 | hi2
      · have hxi : X[i]? = some X[i] := List.getElem?_eq_getElem hi2
        simp [RBF.eval, List.getElem?_map, hxi, hxj,
          List.getElem?_eq_none (by simpa using hj : X.length ≤ j)]
      · omega
  · have hxi : X[i]? = none := List.getElem?_eq_none hi
    rcases Nat.lt_or_ge j X.length with hj | hj
    · have hxj : X[j]? = some X[j] := List.getElem?_eq_getElem hj
      simp [RBF.eval, List.getElem?_map, hxi, hxj,
        List.getElem?_eq_none (by simpa using hi : X.length ≤ i)]
    · have hxj : X[j]? = none := List.getElem?_eq_none hj
      simp [RBF.eval, List.getElem?_map, hxi, hxj]

/-- C8: set_params overwrites the shape parameter in place, leaving the name
and profile function untouched, and deterministically changes evaluation:
the Gaussian with ep = 1 on the points 0 and 1 gives exp(-1), and the same
object after set_params 2 gives exp(-4) on the identical call. -/
theorem C8_set_params :
    (∀ (K : RBF) (par : ℚ), (K.set_params par).ep = par ∧
      (K.set_params par).name = K.name ∧ (K.set_params par).rbf = K.rbf) ∧
    (Gaussian 1).eval [[0]] [[1]] = [[Real.exp (-1)]] ∧
    ((Gaussian 1).set_params 2).eval [[0]] [[1]] = [[Real.exp (-4)]] := by
  have hd1 : euclDist [(0 : ℝ)] [1] = 1 := by
    have h : ((0 : ℝ) - 1) ^ 2 = 1 := by norm_num
    simp [euclDist, h, Real.sqrt_one]
  refine ⟨fun K par => ⟨rfl, rfl, rfl⟩, ?_, ?_⟩
  · norm_num [RBF.eval, Gaussian, hd1]
  · norm_num [RBF.eval, RBF.set_params, Gaussian, hd1]

/-- The format of 2.5 in two decimal scientific notation. -/
theorem fmtE_five_halves : fmtE (5 / 2) = "2.50e+00" := by
  have h0 : ¬((5 / 2 : ℚ) = 0) := by norm_num
  have hneg : ¬((5 / 2 : ℚ) < 0) := by norm_num
  have habs : |(5 / 2 : ℚ)| = 5 / 2 := abs_of_nonneg (by norm_num)
  have hfloor : Nat.floor (5 / 2 : ℚ) = 2 := by
    rw [Nat.floor_eq_iff (by norm_num : (0 : ℚ) ≤ 5 / 2)]
    norm_num
  have hlog : Int.log 10 (5 / 2 : ℚ) = 0 := by
    rw [Int.log_of_one_le_right 10 (by norm_num : (1 : ℚ) ≤ 5 / 2), hfloor]
    norm_num [Nat.log_eq_zero_iff]
  have hround : round ((5 / 2 : ℚ) * 100 / 10 ^ (0 : ℤ)) = 250 := by
    rw [zpow_zero, div_one, round_eq]
    norm_num
  simp only [fmtE, h0, hneg, habs, hlog, hround, if_false]
  norm_num
  rfl

/-- C9: the describe label of every RBF kernel object is its name followed
by the shape parameter in two decimal scientific format, and the Gaussian
with ep = 2.5 is labelled exactly "gauss [gamma = 2.50e+00]". -/
theorem C9_describe :
    (∀ K : RBF, K.str = K.name ++ " [gamma = " ++ fmtE K.ep ++ "]") ∧
    (Gaussian (5 / 2)).str = "gauss [gamma = 2.50e+00]" := by
  refine ⟨fun K => rfl, ?_⟩
  show "gauss" ++ " [gamma = " ++ fmtE (5 / 2) ++ "]" = _
  rw [fmtE_five_halves]
  rfl

/-- C10: the Wendland profile is nonnegative at every nonnegative scaled
distance, hence every evaluation entry and every diagonal entry of a
supported Wendland kernel is nonnegative. -/
theorem C10_wendland_nonneg (ep : ℚ) (k d : ℕ) (hk : k ≤ 4) (hd : 1 ≤ d)
    (hep : 0 ≤ ep) (K : RBF) (hK : Wendland ep k d = .ok K) :
    (∀ r : ℝ, 0 ≤ r → 0 ≤ K.rbf K.ep r) ∧
    (∀ (X Y : List (List ℝ)) (i j : ℕ) (v : ℝ),
      ((K.eval X Y)[i]?.bind fun row => row[j]?) = some v → 0 ≤ v) ∧
    (∀ (X : List (List ℝ)) (i : ℕ) (v : ℝ),
      (K.diagonal X)[i]? = some v → 0 ≤ v) := by
  have hpro : ∀ r : ℝ, 0 ≤ r → 0 ≤ K.rbf K.ep r := by
    intro r hr
    have hx : (0 : ℝ) ≤ (ep : ℝ) * r :=
      mul_nonneg (by exact_mod_cast hep) hr
    have hx2 : (0 : ℝ) ≤ ((ep : ℝ) * r) ^ 2 := sq_nonneg _
    have hx3 : (0 : ℝ) ≤ ((ep : ℝ) * r) ^ 3 := pow_nonneg hx 3
    have hx4 : (0 : ℝ) ≤ ((ep : ℝ) * r) ^ 4 := pow_nonneg hx 4
    interval_cases k
    · simp [Wendland] at hK
      subst hK
      simp only [wendFinish]
      refine div_nonneg (mul_nonneg (pow_nonneg (le_max_right _ _) _) ?_)
        (by positivity)
      norm_num
    · simp [Wendland] at hK
      subst hK
      simp only [wendFinish]
      refine div_nonneg (mul_nonneg (pow_nonneg (le_max_right _ _) _) ?_)
        (by positivity)
      have h1 := mul_nonneg
        (by positivity : (0 : ℝ) ≤ ((d / 2 : ℕ) : ℝ) + 1 + 1 + 1) hx
      linarith
    · simp [Wendland] at hK
      subst hK
      simp only [wendFinish]
      refine div_nonneg (mul_nonneg (pow_nonneg (le_max_right _ _) _) ?_)
        (by positivity)
      have h1 := mul_nonneg
        (by positivity :
          (0 : ℝ) ≤ (((d / 2 : ℕ) : ℝ) + 2 + 1 + 3) *
            (((d / 2 : ℕ) : ℝ) + 2 + 1 + 1)) hx2
      have h2 := mul_nonneg
        (by positivity : (0 : ℝ) ≤ 3 * (((d / 2 : ℕ) : ℝ) + 2 + 1 + 2)) hx
      linarith
    · simp [Wendland] at hK
      subst hK
      simp only [wendFinish]
      refine div_nonneg (mul_nonneg (pow_nonneg (le_max_right _ _) _) ?_)
        (by positivity)
      have h1 := mul_nonneg
        (by positivity :
          (0 : ℝ) ≤ (((d / 2 : ℕ) : ℝ) + 3 + 1 + 5) *
            (((d / 2 : ℕ) : ℝ) + 3 + 1 + 3) * (((d / 2 : ℕ) : ℝ) + 3 + 1 + 1)) hx3
      have h2 := mul_nonneg
        (by positivity :
          (0 : ℝ) ≤ 45 + 6 * (((d / 2 : ℕ) : ℝ) + 3 + 1) *
            (((d / 2 : ℕ) : ℝ) + 3 + 1 + 6)) hx2
      have h3 := mul_nonneg
        (by positivity : (0 : ℝ) ≤ 15 * (((d / 2 : ℕ) : ℝ) + 3 + 1 + 3)) hx
      linarith
    · simp [Wendland] at hK
      subst hK
      simp only [wendFinish]
      refine div_nonneg (mul_nonneg (pow_nonneg (le_max_right _ _) _) ?_)
        (by positivity)
      have h1 := mul_nonneg
        (by positivity :
          (0 : ℝ) ≤ (((d / 2 : ℕ) : ℝ) + 4 + 1 + 7) *
            (((d / 2 : ℕ) : ℝ) + 4 + 1 + 5) * (((d / 2 : ℕ) : ℝ) + 4 + 1 + 3) *
            (((d / 2 : ℕ) : ℝ) + 4 + 1 + 1)) hx4
      have h2 := mul_nonneg
        (by positivity :
          (0 : ℝ) ≤ 5 * (((d / 2 : ℕ) : ℝ) + 4 + 1 + 4) *
            (21 + 2 * (((d / 2 : ℕ) : ℝ) + 4 + 1) *
              (8 + (((d / 2 : ℕ) : ℝ) + 4 + 1)))) hx3
      have h3 := mul_nonneg
        (by positivity :
          (0 : ℝ) ≤ 45 * (14 + (((d / 2 : ℕ) : ℝ) + 4 + 1) *
            ((((d / 2 : ℕ) : ℝ) + 4 + 1) + 8))) hx2
      have h4 := mul_nonneg
        (by positivity : (0 : ℝ) ≤ 105 * (((d / 2 : ℕ) : ℝ) + 4 + 1 + 4)) hx
      linarith
  refine ⟨hpro, ?_, ?_⟩
  · intro X Y i j v hv
    cases hxi : X[i]? with
    | none => simp [RBF.eval, List.getElem?_map, hxi] at hv
    | some xi =>
      cases hyj : Y[j]? with
      | none => simp [RBF.eval, List.getElem?_map, hxi, hyj] at hv
      | some yj =>
        simp [RBF.eval, List.getElem?_map, hxi, hyj] at hv
        exact hv ▸ hpro (euclDist xi yj) (euclDist_nonneg xi yj)
  · intro X i v hv
    simp [RBF.diagonal, List.getElem?_replicate] at hv
    exact hv.2 ▸ hpro 0 le_rfl

/-- C10 witness: Wendland order 0, dimension 1, with ep = 1. -/
theorem C10_wendland_nonneg_witness :
    (0 : ℕ) ≤ 4 ∧ (1 : ℕ) ≤ 1 ∧ (0 : ℚ) ≤ 1 ∧
    Wendland 1 0 1 = .ok (wendFinish 1 0 1 1 fun _ => 1) ∧
    ((∀ r : ℝ, 0 ≤ r →
        0 ≤ (wendFinish 1 0 1 1 fun _ => 1).rbf
          (wendFinish 1 0 1 1 fun _ => 1).ep r) ∧
      (∀ (X Y : List (List ℝ)) (i j : ℕ) (v : ℝ),
        (((wendFinish 1 0 1 1 fun _ => 1).eval X Y)[i]?.bind
          fun row => row[j]?) = some v → 0 ≤ v) ∧
      (∀ (X : List (List ℝ)) (i : ℕ) (v : ℝ),
        ((wendFinish 1 0 1 1 fun _ => 1).diagonal X)[i]? = some v → 0 ≤ v)) :=
  ⟨by norm_num, le_refl 1, by norm_num, rfl,
    C10_wendland_nonneg 1 0 1 (by norm_num) (le_refl 1) (by norm_num)
      (wendFinish 1 0 1 1 fun _ => 1) rfl⟩

end Kernels
